import Mathlib

/-!
# ArcaneWeaver entity-system components: a shallow embedding

This file embeds `src/arcaneweaver/core/entity_system/components.py` in Lean 4
and settles the specification claims about it.

Modelling conventions:

* Python `int` becomes `Int`; Python `float` stat values become `ℚ` (the claims
  under scrutiny only use order, `+` and clamping, which floats realise exactly
  on the inputs involved; no rounding-sensitive behaviour is claimed).
* Pydantic models become structures.  Methods that mutate `self` become
  functions returning the updated structure (paired with their Python return
  value).
* Pydantic v2 semantics embedded here, and relied on throughout:
  - During model construction, fields are validated in declaration order and a
    `field_validator`'s `validation_info.data` contains only the fields already
    validated.  In `StatComponent` the fields `min_value` / `max_value` are
    declared after `base_value` / `current_value`, so during construction the
    validators `validate_base_value` / `validate_current_value` read
    `values.get("min_value") = None` and `values.get("max_value") = None` and
    perform no clamping.  Likewise in `InventoryCellComponent` the field
    `max_stack_size` is declared after `quantity`, so during construction
    `validate_quantity` reads `values.get("max_stack_size", 1) = 1`.
  - On field assignment (`validate_assignment=True`) the validator's
    `validation_info.data` holds all the other fields of the instance, so
    assignment does clamp against the instance's actual bounds.  The
    repository's own tests (`test_stat_component_validation_min_value`,
    `test_inventory_component_validation_quantity_exceeds_max`) exercise and
    confirm exactly this assignment behaviour.
  - `model_copy(update=...)` performs no validation; `self.__dict__.update`
    bypasses validation.  `InventoryCellComponent.add_items` / `remove_items`
    use that pair, so their updates are plain field writes.
  - In-place list mutation (`self.stats.append`, `del self.stats[i]`,
    `self.cells.append`) never triggers validation.
* The `while` loop of `InventoryComponent.add_item` is embedded with explicit
  fuel `quantity.toNat`; each productive iteration of the Python loop adds at
  least one item (every reachable cell has `max_stack_size >= 1`), so this fuel
  is never exhausted on states satisfying the data-model invariant.
-/

namespace ArcaneWeaver

/-! ## InventoryCellComponent -/

/-- Embedding of `InventoryCellComponent` (components.py, lines 557-699).
`component_type` is a constant tag and is omitted. -/
structure InventoryCellComponent where
  item_id : Option String
  quantity : Int
  max_stack_size : Int
  slot_type : Option String
  is_equipped : Bool
deriving DecidableEq, Repr

namespace InventoryCellComponent

/-- `is_empty` (line 615): `self.quantity == 0 or self.item_id is None`. -/
def is_empty (c : InventoryCellComponent) : Bool :=
  decide (c.quantity = 0 ∨ c.item_id = none)

/-- `is_full` (line 623): `self.quantity >= self.max_stack_size`. -/
def is_full (c : InventoryCellComponent) : Bool :=
  decide (c.max_stack_size ≤ c.quantity)

/-- `add_items` (lines 631-661).  Returns the Python return value (items
actually added) together with the updated cell.  The update goes through
`model_copy(update=...)` + `__dict__.update` in the source, which performs no
validation, so it is a plain field write. -/
def add_items (c : InventoryCellComponent) (item_id : String) (add_quantity : Int) :
    Int × InventoryCellComponent :=
  if add_quantity ≤ 0 then (0, c)
  else if c.is_empty = false ∧ c.item_id ≠ some item_id then (0, c)
  else
    let available_space := c.max_stack_size - c.quantity
    let actual_add := min add_quantity available_space
    (actual_add, { c with item_id := some item_id, quantity := c.quantity + actual_add })

/-- `remove_items` (lines 663-687).  Returns (items actually removed, updated
cell); the update bypasses validation exactly as in `add_items`. -/
def remove_items (c : InventoryCellComponent) (remove_quantity : Int) :
    Int × InventoryCellComponent :=
  if remove_quantity ≤ 0 ∨ c.is_empty = true then (0, c)
  else
    let actual_remove := min remove_quantity c.quantity
    let new_quantity := c.quantity - actual_remove
    if new_quantity = 0 then
      (actual_remove, { c with quantity := new_quantity, item_id := none })
    else
      (actual_remove, { c with quantity := new_quantity })

end InventoryCellComponent

/-- The data-model invariant of an inventory cell: `0 <= quantity <=
max_stack_size`, `quantity == 0` iff `item_id is None`, and the Pydantic field
constraint `max_stack_size >= 1` (`Field(ge=1)`). -/
def CellInv (c : InventoryCellComponent) : Prop :=
  0 ≤ c.quantity ∧ c.quantity ≤ c.max_stack_size ∧
    (c.quantity = 0 ↔ c.item_id = none) ∧ 1 ≤ c.max_stack_size

instance (c : InventoryCellComponent) : Decidable (CellInv c) := by
  unfold CellInv; infer_instance

/-- One mutation of an inventory cell: an `add_items` or a `remove_items` call. -/
inductive CellOp where
  | add (item_id : String) (q : Int)
  | remove (q : Int)

/-- Apply one `CellOp` to a cell, discarding the returned count. -/
def applyCellOp (c : InventoryCellComponent) : CellOp → InventoryCellComponent
  | .add i q => (c.add_items i q).2
  | .remove q => (c.remove_items q).2

section CellLemmas

open InventoryCellComponent

theorem is_empty_eq_false {c : InventoryCellComponent} :
    c.is_empty = false ↔ (c.quantity ≠ 0 ∧ c.item_id ≠ none) := by
  simp [is_empty, not_or]

theorem is_empty_eq_true {c : InventoryCellComponent} :
    c.is_empty = true ↔ (c.quantity = 0 ∨ c.item_id = none) := by
  simp [is_empty]

/-- `add_items` preserves the cell invariant. -/
theorem add_items_inv {c : InventoryCellComponent} (h : CellInv c)
    (i : String) (q : Int) : CellInv (c.add_items i q).2 := by
  obtain ⟨h0, h1, h2, h3⟩ := h
  unfold add_items
  split
  · exact ⟨h0, h1, h2, h3⟩
  split
  · exact ⟨h0, h1, h2, h3⟩
  rename_i hq hne
  push_neg at hq
  dsimp only
  refine ⟨?_, ?_, ?_, h3⟩
  · show 0 ≤ c.quantity + min q (c.max_stack_size - c.quantity)
    omega
  · show c.quantity + min q (c.max_stack_size - c.quantity) ≤ c.max_stack_size
    omega
  · show c.quantity + min q (c.max_stack_size - c.quantity) = 0 ↔ some i = none
    constructor
    · intro hsum
      exact absurd hsum (by omega)
    · intro hcontra
      simp at hcontra

/-- `remove_items` preserves the cell invariant. -/
theorem remove_items_inv {c : InventoryCellComponent} (h : CellInv c)
    (q : Int) : CellInv (c.remove_items q).2 := by
  obtain ⟨h0, h1, h2, h3⟩ := h
  unfold remove_items
  split
  · exact ⟨h0, h1, h2, h3⟩
  rename_i hcond
  push_neg at hcond
  obtain ⟨hq, hne⟩ := hcond
  have hfalse : c.is_empty = false := by
    cases hb : c.is_empty
    · rfl
    · exact absurd hb hne
  obtain ⟨hz, hitem⟩ := is_empty_eq_false.mp hfalse
  dsimp only
  split
  · rename_i hzero
    refine ⟨?_, ?_, ?_, h3⟩
    · show 0 ≤ c.quantity - min q c.quantity
      omega
    · show c.quantity - min q c.quantity ≤ c.max_stack_size
      omega
    · show c.quantity - min q c.quantity = 0 ↔ (none : Option String) = none
      simp [hzero]
  · rename_i hnz
    refine ⟨?_, ?_, ?_, h3⟩
    · show 0 ≤ c.quantity - min q c.quantity
      omega
    · show c.quantity - min q c.quantity ≤ c.max_stack_size
      omega
    · show c.quantity - min q c.quantity = 0 ↔ c.item_id = none
      constructor
      · intro hc
        exact absurd hc hnz
      · intro hcontra
        exact absurd hcontra hitem

end CellLemmas

end ArcaneWeaver

namespace ArcaneWeaver

/-! ## Claim C3 -/

/-- **C3.** For every `InventoryCellComponent` and every finite sequence of
`add_items` and `remove_items` calls, after every call
`0 <= quantity <= max_stack_size` holds, and `quantity == 0` holds iff
`item_id is None`.  (Folding any list of operations over a cell satisfying the
data-model invariant keeps the invariant; since the list is arbitrary, the
invariant holds after every call of any sequence.) -/
theorem c3_cell_invariant_preserved (c : InventoryCellComponent) (h : CellInv c)
    (ops : List CellOp) : CellInv (ops.foldl applyCellOp c) := by
  induction ops generalizing c with
  | nil => exact h
  | cons op rest ih =>
    apply ih
    cases op with
    | add i q => exact add_items_inv h i q
    | remove q => exact remove_items_inv h q

/-- Witness for C3: a concrete cell run through a concrete sequence of calls. -/
theorem c3_cell_invariant_preserved_witness :
    CellInv ([CellOp.add "potion" 3, CellOp.remove 1, CellOp.add "potion" 9,
        CellOp.remove 20].foldl applyCellOp
      { item_id := none, quantity := 0, max_stack_size := 5,
        slot_type := none, is_equipped := false }) :=
  c3_cell_invariant_preserved _ (by decide) _

/-! ## StatComponent -/

/-- Embedding of `StatComponent` (components.py, lines 222-341); numeric values
are modelled by `ℚ`.  `component_type` is a constant tag and is omitted. -/
structure StatComponent where
  name : String
  base_value : ℚ
  current_value : ℚ
  min_value : Option ℚ
  max_value : Option ℚ
  description : String
deriving DecidableEq, Repr

namespace StatComponent

/-- The field validators `validate_current_value` / `validate_base_value`
(lines 251-295): clamp with early return — when the value is below a present
`min_value` the minimum is returned at once, without consulting `max_value`. -/
def validateValue (min_value max_value : Option ℚ) (v : ℚ) : ℚ :=
  match min_value, max_value with
  | some lo, some hi => if v < lo then lo else if hi < v then hi else v
  | some lo, none => if v < lo then lo else v
  | none, some hi => if hi < v then hi else v
  | none, none => v

/-- The inline clamping of `modify_value` / `set_base_value` (lines 308-312 and
333-337): sequential — both bound checks are applied in turn, no early
return. -/
def clampSeq (min_value max_value : Option ℚ) (v : ℚ) : ℚ :=
  let v1 := match min_value with
    | some lo => if v < lo then lo else v
    | none => v
  match max_value with
  | some hi => if hi < v1 then hi else v1
  | none => v1

/-- Assignment `self.current_value = v`: with `validate_assignment=True` the
validator runs with `validation_info.data` holding the other fields of the
instance, so it clamps against the instance's real bounds. -/
def setCurrentValue (s : StatComponent) (v : ℚ) : StatComponent :=
  { s with current_value := validateValue s.min_value s.max_value v }

/-- Assignment `self.base_value = v`, validated like `setCurrentValue`. -/
def setBaseValueRaw (s : StatComponent) (v : ℚ) : StatComponent :=
  { s with base_value := validateValue s.min_value s.max_value v }

/-- Construction: `StatComponent.__init__` (lines 245-249) plus Pydantic field
validation.  If `current_value` is absent from the payload, `__init__` copies
`base_value` into it.  The fields are then validated in declaration order:
`base_value` and `current_value` are validated BEFORE `min_value` and
`max_value`, so `validate_base_value` / `validate_current_value` read
`values.get("min_value") = None` and `values.get("max_value") = None` and do
not clamp — construction stores the raw values whatever bounds the payload
carries. -/
def make (name : String) (base_value : ℚ) (current_value : Option ℚ)
    (min_value max_value : Option ℚ) (description : String) : StatComponent :=
  { name := name
    base_value := base_value
    current_value := current_value.getD base_value
    min_value := min_value
    max_value := max_value
    description := description }

/-- `modify_value` (lines 297-315): inline clamp of `current_value + modifier`,
then assignment (which re-validates), then return `self.current_value`. -/
def modify_value (s : StatComponent) (modifier : ℚ) : ℚ × StatComponent :=
  let new_value := clampSeq s.min_value s.max_value (s.current_value + modifier)
  let s' := s.setCurrentValue new_value
  (s'.current_value, s')

/-- `reset_to_base` (lines 317-322): `self.current_value = self.base_value`. -/
def reset_to_base (s : StatComponent) : StatComponent :=
  s.setCurrentValue s.base_value

/-- `set_base_value` (lines 324-341): inline clamp, assign to `base_value` and
`current_value` (both re-validated on assignment), return `self.base_value`. -/
def set_base_value (s : StatComponent) (new_value : ℚ) : ℚ × StatComponent :=
  let nv := clampSeq s.min_value s.max_value new_value
  let s1 := s.setBaseValueRaw nv
  let s2 := s1.setCurrentValue nv
  (s2.base_value, s2)

end StatComponent

/-- Bounds of a stat are coherent: when both are present, `min <= max`.
(The claims' notion of "clamping to `[min_value, max_value]`" presupposes
this.) -/
def OrderedBounds (s : StatComponent) : Prop :=
  ∀ lo hi, s.min_value = some lo → s.max_value = some hi → lo ≤ hi

section StatLemmas

open StatComponent

/-- On coherent bounds, the assignment validator fixes the sequential clamp:
re-validating a sequentially clamped value changes nothing. -/
theorem validateValue_clampSeq (minv maxv : Option ℚ)
    (hord : ∀ lo hi, minv = some lo → maxv = some hi → lo ≤ hi) (v : ℚ) :
    validateValue minv maxv (clampSeq minv maxv v) = clampSeq minv maxv v := by
  cases minv with
  | none =>
    cases maxv with
    | none => rfl
    | some hi =>
      simp only [validateValue, clampSeq]
      split_ifs <;> rfl
  | some lo =>
    cases maxv with
    | none =>
      simp only [validateValue, clampSeq]
      split_ifs <;> rfl
    | some hi =>
      have hle : lo ≤ hi := hord lo hi rfl rfl
      simp only [validateValue, clampSeq]
      split_ifs <;> first | rfl | linarith

end StatLemmas

/-! ## Claim C1 -/

/-- **C1** is REFUTED by the code at construction time: constructing
`StatComponent(name="strength", base_value=200, min_value=0, max_value=100)`
leaves `base_value = current_value = 200`, strictly above the `max_value`
bound `100`, because the clamping validators run before `min_value` /
`max_value` have been validated and therefore see no bounds at all.  The
validators' own docstrings ("Ensures current_value respects min_value and
max_value constraints") say clamping was intended, so this is a bug in the
code rather than in the claim. -/
theorem c1_construction_unclamped :
    (StatComponent.make "strength" 200 none (some 0) (some 100) "").base_value = 200 ∧
    (StatComponent.make "strength" 200 none (some 0) (some 100) "").current_value = 200 ∧
    (StatComponent.make "strength" 200 none (some 0) (some 100) "").max_value = some 100 ∧
    ¬((StatComponent.make "strength" 200 none (some 0) (some 100) "").base_value ≤ 100) := by
  refine ⟨rfl, rfl, rfl, by norm_num [StatComponent.make]⟩

/-! ## Claim C6 -/

/-- **C6.** For every `StatComponent` (with coherent bounds) and every delta,
`modify_value` adds the delta to `current_value`, clamps the result to the
bounds that are set, assigns it to `current_value`, and returns it, leaving
`base_value` (and every other field) unchanged. -/
theorem c6_modify_value (s : StatComponent) (modifier : ℚ) (hord : OrderedBounds s) :
    s.modify_value modifier =
      (StatComponent.clampSeq s.min_value s.max_value (s.current_value + modifier),
       { s with current_value :=
          StatComponent.clampSeq s.min_value s.max_value (s.current_value + modifier) }) := by
  unfold StatComponent.modify_value StatComponent.setCurrentValue
  dsimp only
  rw [validateValue_clampSeq s.min_value s.max_value hord]

/-- Witness for C6, the spec's Scenario 4: `BoundedStat(base=10, min=0,
max=100)`; `modify(-50)` returns 0, `current_value == 0`, `base_value == 10`. -/
theorem c6_modify_value_witness :
    ((StatComponent.make "hp" 10 none (some 0) (some 100) "").modify_value (-50)).1 = 0 ∧
    ((StatComponent.make "hp" 10 none (some 0) (some 100) "").modify_value (-50)).2.current_value = 0 ∧
    ((StatComponent.make "hp" 10 none (some 0) (some 100) "").modify_value (-50)).2.base_value = 10 := by
  have h := c6_modify_value (StatComponent.make "hp" 10 none (some 0) (some 100) "") (-50)
    (by intro lo hi hlo hhi
        simp only [StatComponent.make, Option.some.injEq] at hlo hhi
        rw [← hlo, ← hhi]
        norm_num)
  rw [h]
  refine ⟨?_, ?_, ?_⟩ <;> norm_num [StatComponent.clampSeq, StatComponent.make]

/-! ## StatsComponent -/

/-- Embedding of `StatsComponent` (components.py, lines 344-554).
`component_type` is a constant tag and is omitted. -/
structure StatsComponent where
  stats : List StatComponent
  max_stats : Option Int
deriving DecidableEq, Repr

namespace StatsComponent

/-- `get_stat` (lines 439-451): first stat with the given name, else `None`. -/
def get_stat (s : StatsComponent) (name : String) : Option StatComponent :=
  s.stats.find? (fun st => st.name == name)

/-- `has_stat` (lines 453-462). -/
def has_stat (s : StatsComponent) (name : String) : Bool :=
  (s.get_stat name).isSome

/-- The loop of `remove_stat` (lines 424-437) over the stat list: delete the
first stat with the given name (`del self.stats[i]`, an in-place list edit
that triggers no validation) and report whether one was found. -/
def removeStatList (name : String) : List StatComponent → Bool × List StatComponent
  | [] => (false, [])
  | st :: rest =>
    if st.name = name then (true, rest)
    else
      let p := removeStatList name rest
      (p.1, st :: p.2)

/-- `remove_stat` (lines 424-437). -/
def remove_stat (s : StatsComponent) (name : String) : Bool × StatsComponent :=
  let p := removeStatList name s.stats
  (p.1, { s with stats := p.2 })

/-- The two failure modes of `add_stat`, both raised as `ValueError` in the
source and distinguished by message: `duplicateName` is
"Stat with name '...' already exists..." (line 403, the spec's
`DuplicateNameError`) and `capacityReached` is
"Cannot add stat: maximum number of stats ... reached" (line 407, the spec's
`CapacityExceededError`). -/
inductive AddStatError where
  | duplicateName
  | capacityReached
deriving DecidableEq, Repr

/-- The capacity test of `add_stat` (line 406):
`self.max_stats is not None and len(self.stats) >= self.max_stats`. -/
def atCapacity (s : StatsComponent) : Bool :=
  match s.max_stats with
  | some m => decide (m ≤ (s.stats.length : Int))
  | none => false

/-- The tail of `add_stat` after duplicate handling (lines 405-422): capacity
check, then construction of the new `StatComponent` (with `current_value`
passed only when provided) and `self.stats.append` (no validation). -/
def addChecked (s : StatsComponent) (name : String) (base_value : ℚ)
    (current_value : Option ℚ) (min_value max_value : Option ℚ)
    (description : String) : Except AddStatError StatComponent × StatsComponent :=
  if s.atCapacity = true then (.error .capacityReached, s)
  else
    let new_stat := StatComponent.make name base_value current_value min_value max_value description
    (.ok new_stat, { s with stats := s.stats ++ [new_stat] })

/-- `add_stat` (lines 370-422).  A raised `ValueError` becomes `.error`; the
returned state is the instance as the exception leaves it (the duplicate check
raises before any mutation; in the replace path the removal happens before the
capacity check). -/
def add_stat (s : StatsComponent) (name : String) (base_value : ℚ)
    (current_value : Option ℚ) (min_value max_value : Option ℚ)
    (description : String) (replace_if_exists : Bool) :
    Except AddStatError StatComponent × StatsComponent :=
  if (s.get_stat name).isSome then
    if replace_if_exists then
      addChecked (s.remove_stat name).2 name base_value current_value min_value max_value description
    else (.error .duplicateName, s)
  else
    addChecked s name base_value current_value min_value max_value description

/-- The shared shape of the delegated operations (lines 464-523): look up the
first stat with the given name, mutate it in place via `f`, propagate the
value `f` computes; when absent, nothing is touched. -/
def updateFirstStat {α : Type} (name : String) (f : StatComponent → α × StatComponent) :
    List StatComponent → Option (α × List StatComponent)
  | [] => none
  | st :: rest =>
    if st.name = name then
      let p := f st
      some (p.1, p.2 :: rest)
    else
      (updateFirstStat name f rest).map (fun p => (p.1, st :: p.2))

/-- `modify_stat` (lines 464-477): `None` when absent, else the delegated
`modify_value` result. -/
def modify_stat (s : StatsComponent) (name : String) (modifier : ℚ) :
    Option ℚ × StatsComponent :=
  match updateFirstStat name (fun st => st.modify_value modifier) s.stats with
  | some (v, l) => (some v, { s with stats := l })
  | none => (none, s)

/-- `set_stat_base_value` (lines 479-492). -/
def set_stat_base_value (s : StatsComponent) (name : String) (new_value : ℚ) :
    Option ℚ × StatsComponent :=
  match updateFirstStat name (fun st => st.set_base_value new_value) s.stats with
  | some (v, l) => (some v, { s with stats := l })
  | none => (none, s)

/-- `set_stat_current_value` (lines 494-508): direct validated assignment to
`current_value`, returning the stored (possibly clamped) value. -/
def set_stat_current_value (s : StatsComponent) (name : String) (new_value : ℚ) :
    Option ℚ × StatsComponent :=
  match updateFirstStat name
      (fun st =>
        let st' := st.setCurrentValue new_value
        (st'.current_value, st')) s.stats with
  | some (v, l) => (some v, { s with stats := l })
  | none => (none, s)

/-- `reset_stat_to_base` (lines 510-523): `False` when absent, else reset and
`True`. -/
def reset_stat_to_base (s : StatsComponent) (name : String) : Bool × StatsComponent :=
  match updateFirstStat name (fun st => ((), st.reset_to_base)) s.stats with
  | some (_, l) => (true, { s with stats := l })
  | none => (false, s)

end StatsComponent

/-- The length invariant of a stat collection: `len(stats) <= max_stats`
whenever `max_stats` is set (established at construction by
`validate_stats_count` and maintained by every operation). -/
def StatsLenInv (s : StatsComponent) : Prop :=
  ∀ m, s.max_stats = some m → (s.stats.length : Int) ≤ m

section StatsLemmas

open StatsComponent

theorem get_stat_none_iff {s : StatsComponent} {name : String} :
    s.get_stat name = none ↔ ∀ st ∈ s.stats, st.name ≠ name := by
  simp [get_stat, List.find?_eq_none]

/-- When no stat carries the name, `updateFirstStat` finds nothing. -/
theorem updateFirstStat_none {α : Type} {name : String}
    {l : List StatComponent} (h : ∀ st ∈ l, st.name ≠ name)
    (f : StatComponent → α × StatComponent) :
    updateFirstStat name f l = none := by
  induction l with
  | nil => rfl
  | cons st rest ih =>
    have hst : st.name ≠ name := h st (by simp)
    simp only [updateFirstStat, if_neg hst]
    rw [ih (fun x hx => h x (by simp [hx]))]
    rfl

/-- When no stat carries the name, `removeStatList` reports `False` and
returns the list unchanged. -/
theorem removeStatList_none {name : String} {l : List StatComponent}
    (h : ∀ st ∈ l, st.name ≠ name) :
    removeStatList name l = (false, l) := by
  induction l with
  | nil => rfl
  | cons st rest ih =>
    have hst : st.name ≠ name := h st (by simp)
    simp only [removeStatList, if_neg hst]
    rw [ih (fun x hx => h x (by simp [hx]))]

/-- When some stat carries the name, removing shortens the list by one. -/
theorem removeStatList_found {name : String} {l : List StatComponent}
    (h : (l.find? (fun st => st.name == name)).isSome) :
    (removeStatList name l).2.length + 1 = l.length := by
  induction l with
  | nil => simp [List.find?] at h
  | cons st rest ih =>
    by_cases hst : st.name = name
    · simp [removeStatList, if_pos hst]
    · rw [List.find?_cons_of_neg] at h
      · simp only [removeStatList, if_neg hst]
        have := ih h
        simp only [List.length_cons]
        omega
      · simp [hst]

end StatsLemmas

/-! ## Claim C8 -/

/-- **C8.** For every `StatsComponent` and every name not present in the
collection, `modify_stat`, `set_stat_base_value` and `set_stat_current_value`
return `None`, `reset_stat_to_base` and `remove_stat` return `False`, and none
of them changes the collection (nor raises: all five are total here, matching
the raise-free Python bodies). -/
theorem c8_missing_name_sentinels (s : StatsComponent) (name : String)
    (modifier new_base new_current : ℚ)
    (habsent : s.get_stat name = none) :
    s.modify_stat name modifier = (none, s) ∧
    s.set_stat_base_value name new_base = (none, s) ∧
    s.set_stat_current_value name new_current = (none, s) ∧
    s.reset_stat_to_base name = (false, s) ∧
    s.remove_stat name = (false, s) := by
  have h := get_stat_none_iff.mp habsent
  have hrm := removeStatList_none h
  refine ⟨?_, ?_, ?_, ?_, ?_⟩
  · simp [StatsComponent.modify_stat, updateFirstStat_none h]
  · simp [StatsComponent.set_stat_base_value, updateFirstStat_none h]
  · simp [StatsComponent.set_stat_current_value, updateFirstStat_none h]
  · simp [StatsComponent.reset_stat_to_base, updateFirstStat_none h]
  · simp [StatsComponent.remove_stat, hrm]

/-- Witness for C8 on a concrete collection and missing name. -/
theorem c8_missing_name_sentinels_witness :
    (StatsComponent.mk [StatComponent.make "str" 5 none none none ""] none).modify_stat
        "dex" 1 = (none, StatsComponent.mk [StatComponent.make "str" 5 none none none ""] none) ∧
    (StatsComponent.mk [StatComponent.make "str" 5 none none none ""] none).remove_stat
        "dex" = (false, StatsComponent.mk [StatComponent.make "str" 5 none none none ""] none) := by
  have h := c8_missing_name_sentinels
    (StatsComponent.mk [StatComponent.make "str" 5 none none none ""] none) "dex" 1 0 0
    (by decide)
  exact ⟨h.1, h.2.2.2.2⟩

/-! ## Claim C5 -/

/-- **C5.** `add_stat` fails with the duplicate-name error when a stat with
the given name exists and `replace_if_exists` is false, and fails with the
capacity error when appending (a stat with a fresh name) would exceed
`max_stats`; in both failure cases the collection is returned unchanged. -/
theorem c5_add_stat_errors (s : StatsComponent) (name : String) (base_value : ℚ)
    (current_value : Option ℚ) (min_value max_value : Option ℚ) (description : String) :
    (s.has_stat name = true →
      s.add_stat name base_value current_value min_value max_value description false
        = (.error .duplicateName, s)) ∧
    (s.has_stat name = false → s.atCapacity = true → ∀ replace_if_exists,
      s.add_stat name base_value current_value min_value max_value description replace_if_exists
        = (.error .capacityReached, s)) := by
  constructor
  · intro hdup
    simp only [StatsComponent.has_stat] at hdup
    simp [StatsComponent.add_stat, hdup]
  · intro hfresh hcap replace_if_exists
    have hnone : s.get_stat name = none := by
      cases h : s.get_stat name with
      | none => rfl
      | some st =>
        rw [StatsComponent.has_stat, h] at hfresh
        simp at hfresh
    simp [StatsComponent.add_stat, hnone, StatsComponent.addChecked, hcap]

/-- Witness for C5, the spec's Scenario 3: a collection with `max_stats=2`
holding "str" and "dex"; re-adding "str" without replacement fails with the
duplicate error, adding a fresh "int" fails with the capacity error, and the
collection (in particular its length 2) is unchanged in both cases. -/
theorem c5_add_stat_errors_witness :
    (StatsComponent.mk [StatComponent.make "str" 1 none none none "",
        StatComponent.make "dex" 2 none none none ""] (some 2)).add_stat
        "str" 0 none none none "" false
      = (.error .duplicateName,
         StatsComponent.mk [StatComponent.make "str" 1 none none none "",
           StatComponent.make "dex" 2 none none none ""] (some 2)) ∧
    (StatsComponent.mk [StatComponent.make "str" 1 none none none "",
        StatComponent.make "dex" 2 none none none ""] (some 2)).add_stat
        "int" 0 none none none "" false
      = (.error .capacityReached,
         StatsComponent.mk [StatComponent.make "str" 1 none none none "",
           StatComponent.make "dex" 2 none none none ""] (some 2)) := by
  constructor
  · exact (c5_add_stat_errors _ "str" 0 none none none "").1 (by decide)
  · exact (c5_add_stat_errors _ "int" 0 none none none "").2 (by decide) (by decide) false

/-! ## Claim C9 -/

/-- **C9.** When a stat with the given name exists, `add_stat` with
`replace_if_exists=True` removes the old stat and appends the freshly built
replacement at the end of the sequence (so the stat's position moves to last),
and — because the removal happens before the capacity check — it never fails
with the capacity error, even when the collection is already at `max_stats`. -/
theorem c9_add_stat_replace (s : StatsComponent) (name : String) (base_value : ℚ)
    (current_value : Option ℚ) (min_value max_value : Option ℚ) (description : String)
    (hpresent : s.has_stat name = true) (hlen : StatsLenInv s) :
    s.add_stat name base_value current_value min_value max_value description true
      = (.ok (StatComponent.make name base_value current_value min_value max_value description),
         { s with stats := (StatsComponent.removeStatList name s.stats).2
             ++ [StatComponent.make name base_value current_value min_value max_value description] }) := by
  simp only [StatsComponent.has_stat] at hpresent
  have hshort := @removeStatList_found name s.stats hpresent
  simp only [StatsComponent.add_stat, hpresent, if_true, if_pos]
  have hcap : StatsComponent.atCapacity
      ⟨(StatsComponent.removeStatList name s.stats).2, s.max_stats⟩ = false := by
    simp only [StatsComponent.atCapacity]
    cases hm : s.max_stats with
    | none => rfl
    | some m =>
      have := hlen m hm
      simp only [decide_eq_false_iff_not, not_le]
      omega
  simp [StatsComponent.addChecked, StatsComponent.remove_stat, hcap]

/-- Witness for C9: a full collection (`max_stats=2`) holding "str" then
"dex"; replacing "str" succeeds and moves it behind "dex". -/
theorem c9_add_stat_replace_witness :
    (StatsComponent.mk [StatComponent.make "str" 1 none none none "",
        StatComponent.make "dex" 2 none none none ""] (some 2)).add_stat
        "str" 5 none none none "" true
      = (.ok (StatComponent.make "str" 5 none none none ""),
         StatsComponent.mk [StatComponent.make "dex" 2 none none none "",
           StatComponent.make "str" 5 none none none ""] (some 2)) := by
  rw [c9_add_stat_replace _ "str" 5 none none none "" (by decide)
    (by intro m hm
        injection hm with hm
        subst hm
        decide)]
  rfl

/-! ## InventoryComponent -/

/-- Embedding of `InventoryComponent` (components.py, lines 702-875).
`component_type` is a constant tag and is omitted. -/
structure InventoryComponent where
  cells : List InventoryCellComponent
  max_cells : Int
  default_max_stack_size : Int
deriving DecidableEq, Repr

namespace InventoryComponent

/-- A fresh cell created by `add_item` (line 769):
`InventoryCellComponent(max_stack_size=stack_size)` — empty, unequipped.  The
Pydantic `ge=1` constraint makes that construction raise for
`stack_size < 1`, so the theorems below carry `1 ≤` hypotheses on the stack
sizes in play. -/
def freshCell (stack_size : Int) : InventoryCellComponent :=
  { item_id := none, quantity := 0, max_stack_size := stack_size,
    slot_type := none, is_equipped := false }

/-- The first `for` loop of `add_item` (lines 750-755): feed each non-empty
cell holding the item, in order, through `add_items`; the early
`return quantity` once nothing remains is the `remaining' ≤ 0` exit.  Returns
the updated cell list and the remaining amount. -/
def fillPass (item_id : String) : List InventoryCellComponent → Int →
    List InventoryCellComponent × Int
  | [], remaining => ([], remaining)
  | c :: cs, remaining =>
    if c.is_empty = false ∧ c.item_id = some item_id then
      let p := c.add_items item_id remaining
      let remaining' := remaining - p.1
      if remaining' ≤ 0 then (p.2 :: cs, remaining')
      else
        let q := fillPass item_id cs remaining'
        (p.2 :: q.1, q.2)
    else
      let q := fillPass item_id cs remaining
      (c :: q.1, q.2)

/-- The "find an empty cell" step of the `while` loop (lines 760-764) fused
with the `add_items` call on the found cell (line 775); `none` when no cell
is empty. -/
def addToFirstEmpty (item_id : String) (remaining : Int) :
    List InventoryCellComponent → Option (List InventoryCellComponent × Int)
  | [] => none
  | c :: cs =>
    if c.is_empty = true then
      let p := c.add_items item_id remaining
      some (p.2 :: cs, p.1)
    else
      (addToFirstEmpty item_id remaining cs).map (fun q => (c :: q.1, q.2))

/-- The `while remaining_quantity > 0` loop of `add_item` (lines 758-779),
with explicit fuel.  On states whose cells satisfy the data-model invariant
every productive iteration adds at least one item, so the fuel
`quantity.toNat` supplied by `add_item` is never the reason the loop stops. -/
def overflowLoop (item_id : String) (stack_size max_cells : Int) :
    Nat → List InventoryCellComponent → Int → List InventoryCellComponent × Int
  | fuel, cells, remaining =>
    if remaining ≤ 0 then (cells, remaining)
    else
      match fuel with
      | 0 => (cells, remaining)
      | fuel + 1 =>
        match addToFirstEmpty item_id remaining cells with
        | some (cells', added) =>
          overflowLoop item_id stack_size max_cells fuel cells' (remaining - added)
        | none =>
          if (cells.length : Int) < max_cells then
            let p := (freshCell stack_size).add_items item_id remaining
            overflowLoop item_id stack_size max_cells fuel (cells ++ [p.2]) (remaining - p.1)
          else (cells, remaining)

/-- `add_item` (lines 730-781). -/
def add_item (inv : InventoryComponent) (item_id : String) (quantity : Int)
    (max_stack_size : Option Int) : Int × InventoryComponent :=
  if quantity ≤ 0 then (0, inv)
  else
    let f := fillPass item_id inv.cells quantity
    if f.2 ≤ 0 then (quantity, { inv with cells := f.1 })
    else
      let stack_size := max_stack_size.getD inv.default_max_stack_size
      let o := overflowLoop item_id stack_size inv.max_cells quantity.toNat f.1 f.2
      (quantity - o.2, { inv with cells := o.1 })

/-- The loop of `remove_item` (lines 802-807): `remove_items` on each
non-empty matching cell in order, with the early `return quantity` exit. -/
def removePass (item_id : String) : List InventoryCellComponent → Int →
    List InventoryCellComponent × Int
  | [], remaining => ([], remaining)
  | c :: cs, remaining =>
    if c.is_empty = false ∧ c.item_id = some item_id then
      let p := c.remove_items remaining
      let remaining' := remaining - p.1
      if remaining' ≤ 0 then (p.2 :: cs, remaining')
      else
        let q := removePass item_id cs remaining'
        (p.2 :: q.1, q.2)
    else
      let q := removePass item_id cs remaining
      (c :: q.1, q.2)

/-- `remove_item` (lines 783-809). -/
def remove_item (inv : InventoryComponent) (item_id : String) (quantity : Int) :
    Int × InventoryComponent :=
  if quantity ≤ 0 then (0, inv)
  else
    let r := removePass item_id inv.cells quantity
    if r.2 ≤ 0 then (quantity, { inv with cells := r.1 })
    else (quantity - r.2, { inv with cells := r.1 })

/-- The running total of `get_item_count` (lines 833-846): non-empty cells
holding the item contribute their quantity. -/
def countCells (item_id : String) : List InventoryCellComponent → Int
  | [] => 0
  | c :: cs =>
    (if c.is_empty = false ∧ c.item_id = some item_id then c.quantity else 0)
      + countCells item_id cs

/-- `get_item_count` (lines 833-846). -/
def get_item_count (inv : InventoryComponent) (item_id : String) : Int :=
  countCells item_id inv.cells

end InventoryComponent

/-! ## Claim C2: the spec-side allocation algorithm -/

namespace InventoryComponent

/-- C2's fill pass, written from the claim's words: iterate the cells in
order; each non-empty cell whose `item_id` matches accepts
`min(remaining, max_stack_size - quantity)`; stop as soon as nothing
remains. -/
def fillSlotsSpec (item_id : String) : List InventoryCellComponent → Int →
    List InventoryCellComponent × Int
  | [], remaining => ([], remaining)
  | c :: cs, remaining =>
    if c.is_empty = false ∧ c.item_id = some item_id then
      let accepted := min remaining (c.max_stack_size - c.quantity)
      let c' : InventoryCellComponent :=
        { c with item_id := some item_id, quantity := c.quantity + accepted }
      if remaining - accepted ≤ 0 then (c' :: cs, remaining - accepted)
      else
        let q := fillSlotsSpec item_id cs (remaining - accepted)
        (c' :: q.1, q.2)
    else
      let q := fillSlotsSpec item_id cs remaining
      (c :: q.1, q.2)

/-- C2's "use the first empty cell in order": put
`min(remaining, max_stack_size - quantity)` of the item into the first empty
cell; `none` when no cell is empty. -/
def placeInFirstEmptySpec (item_id : String) (remaining : Int) :
    List InventoryCellComponent → Option (List InventoryCellComponent × Int)
  | [] => none
  | c :: cs =>
    if c.is_empty = true then
      let accepted := min remaining (c.max_stack_size - c.quantity)
      some ({ c with item_id := some item_id, quantity := c.quantity + accepted } :: cs,
        accepted)
    else
      (placeInFirstEmptySpec item_id remaining cs).map (fun q => (c :: q.1, q.2))

/-- C2's overflow pass: while an amount remains, use the first empty cell;
only when none exists and the cell count is below `max_cells`, append a fresh
cell of the requested stack size, which then receives
`min(remaining, stack_size)`; stop when neither is possible. -/
def overflowSpec (item_id : String) (stack_size max_cells : Int) :
    Nat → List InventoryCellComponent → Int → List InventoryCellComponent × Int
  | fuel, cells, remaining =>
    if remaining ≤ 0 then (cells, remaining)
    else
      match fuel with
      | 0 => (cells, remaining)
      | fuel + 1 =>
        match placeInFirstEmptySpec item_id remaining cells with
        | some (cells', accepted) =>
          overflowSpec item_id stack_size max_cells fuel cells' (remaining - accepted)
        | none =>
          if (cells.length : Int) < max_cells then
            let newCell : InventoryCellComponent :=
              { item_id := some item_id, quantity := min remaining stack_size,
                max_stack_size := stack_size, slot_type := none, is_equipped := false }
            overflowSpec item_id stack_size max_cells fuel (cells ++ [newCell])
              (remaining - min remaining stack_size)
          else (cells, remaining)

/-- Claim C2 as one function: `0` for `quantity <= 0`; otherwise fill pass
(returning the full requested quantity as soon as nothing remains), then
overflow pass, then `quantity - remaining`. -/
def addItemSpec (inv : InventoryComponent) (item_id : String) (quantity : Int)
    (max_stack_size : Option Int) : Int × InventoryComponent :=
  if quantity ≤ 0 then (0, inv)
  else
    let f := fillSlotsSpec item_id inv.cells quantity
    if f.2 ≤ 0 then (quantity, { inv with cells := f.1 })
    else
      let stack_size := max_stack_size.getD inv.default_max_stack_size
      let o := overflowSpec item_id stack_size inv.max_cells quantity.toNat f.1 f.2
      (quantity - o.2, { inv with cells := o.1 })

end InventoryComponent

section InventoryLemmas

open InventoryCellComponent InventoryComponent

/-- `add_items` on a non-empty cell already holding the item: accepts
`min(amount, free space)`. -/
theorem add_items_matching {c : InventoryCellComponent} {i : String} {rem : Int}
    (hne : c.is_empty = false) (hid : c.item_id = some i) (hrem : 0 < rem) :
    c.add_items i rem =
      (min rem (c.max_stack_size - c.quantity),
       { c with
          item_id := some i
          quantity := c.quantity + min rem (c.max_stack_size - c.quantity) }) := by
  unfold InventoryCellComponent.add_items
  rw [if_neg (by omega), if_neg (by simp [hne, hid])]

/-- `add_items` on an empty cell: the different-item guard is skipped, and
`min(amount, free space)` is accepted. -/
theorem add_items_on_empty {c : InventoryCellComponent} {i : String} {rem : Int}
    (he : c.is_empty = true) (hrem : 0 < rem) :
    c.add_items i rem =
      (min rem (c.max_stack_size - c.quantity),
       { c with
          item_id := some i
          quantity := c.quantity + min rem (c.max_stack_size - c.quantity) }) := by
  unfold InventoryCellComponent.add_items
  rw [if_neg (by omega), if_neg (by simp [he])]

/-- `add_items` on a fresh cell of a given stack size. -/
theorem add_items_freshCell {i : String} {sz rem : Int} (hrem : 0 < rem) :
    (freshCell sz).add_items i rem =
      (min rem sz, ⟨some i, min rem sz, sz, none, false⟩) := by
  have he : (freshCell sz).is_empty = true := rfl
  rw [add_items_on_empty he hrem]
  simp [freshCell]

/-- The fill passes of the code and of claim C2 agree. -/
theorem fillPass_eq_spec (i : String) :
    ∀ (cells : List InventoryCellComponent) (rem : Int), 0 < rem →
    fillPass i cells rem = fillSlotsSpec i cells rem := by
  intro cells
  induction cells with
  | nil =>
    intro rem _
    rfl
  | cons c cs ih =>
    intro rem hrem
    by_cases hc : c.is_empty = false ∧ c.item_id = some i
    · simp only [fillPass, fillSlotsSpec, if_pos hc]
      rw [add_items_matching hc.1 hc.2 hrem]
      dsimp only
      by_cases hstop : rem - min rem (c.max_stack_size - c.quantity) ≤ 0
      · rw [if_pos hstop, if_pos hstop]
      · rw [if_neg hstop, if_neg hstop, ih _ (by omega)]
    · simp only [fillPass, fillSlotsSpec, if_neg hc]
      rw [ih _ hrem]

/-- Finding-and-filling the first empty cell agrees between code and claim. -/
theorem addToFirstEmpty_eq_spec (i : String) :
    ∀ (cells : List InventoryCellComponent) (rem : Int), 0 < rem →
    addToFirstEmpty i rem cells = placeInFirstEmptySpec i rem cells := by
  intro cells
  induction cells with
  | nil =>
    intro rem _
    rfl
  | cons c cs ih =>
    intro rem hrem
    by_cases hc : c.is_empty = true
    · simp only [addToFirstEmpty, placeInFirstEmptySpec, if_pos hc]
      rw [add_items_on_empty hc hrem]
    · simp only [addToFirstEmpty, placeInFirstEmptySpec, if_neg hc]
      rw [ih _ hrem]

/-- The overflow loops of the code and of claim C2 agree (same fuel). -/
theorem overflowLoop_eq_spec (i : String) (sz maxc : Int) :
    ∀ (fuel : Nat) (cells : List InventoryCellComponent) (rem : Int),
    overflowLoop i sz maxc fuel cells rem = overflowSpec i sz maxc fuel cells rem := by
  intro fuel
  induction fuel with
  | zero =>
    intro cells rem
    unfold overflowLoop overflowSpec
    by_cases h : rem ≤ 0 <;> simp [h]
  | succ f ih =>
    intro cells rem
    unfold overflowLoop overflowSpec
    by_cases h : rem ≤ 0
    · rw [if_pos h, if_pos h]
    · rw [if_neg h, if_neg h]
      dsimp only
      rw [addToFirstEmpty_eq_spec i cells rem (by omega)]
      cases hplace : placeInFirstEmptySpec i rem cells with
      | some p =>
        dsimp only
        exact ih _ _
      | none =>
        dsimp only
        by_cases hlen : (cells.length : Int) < maxc
        · rw [if_pos hlen, if_pos hlen, add_items_freshCell (by omega)]
          exact ih _ _
        · rw [if_neg hlen, if_neg hlen]

end InventoryLemmas

/-! ## Claim C2 -/

/-- **C2.** `add_item` is exactly the allocation algorithm the claim
describes: for `quantity <= 0` it returns `0`; otherwise it first fills
existing non-empty matching cells in order (returning the full requested
quantity as soon as nothing remains), then, while an amount remains, uses the
first empty cell in order, appending a fresh cell (of the given
`max_stack_size`, or `default_max_stack_size`) only when no empty cell exists
and the cell count is below `max_cells`, stopping when neither is possible,
and finally returns `quantity - remaining`. -/
theorem c2_add_item_refines_spec (inv : InventoryComponent) (item_id : String)
    (quantity : Int) (max_stack_size : Option Int) :
    inv.add_item item_id quantity max_stack_size
      = inv.addItemSpec item_id quantity max_stack_size := by
  unfold InventoryComponent.add_item InventoryComponent.addItemSpec
  by_cases h : quantity ≤ 0
  · rw [if_pos h, if_pos h]
  · rw [if_neg h, if_neg h]
    dsimp only
    rw [fillPass_eq_spec item_id inv.cells quantity (by omega)]
    by_cases h2 : (InventoryComponent.fillSlotsSpec item_id inv.cells quantity).2 ≤ 0
    · rw [if_pos h2, if_pos h2]
    · rw [if_neg h2, if_neg h2, overflowLoop_eq_spec]

/-! ## Claim C10 -/

/-- The possible fates of a single cell under `remove_item`: untouched,
emptied in place (`item_id` cleared, quantity zero), or partially drained in
place (item identity, stack size, slot type and equip flag intact, quantity
strictly between zero and its old value). -/
def removedCell (c c' : InventoryCellComponent) : Prop :=
  c' = c ∨
  c' = { c with item_id := none, quantity := 0 } ∨
  (∃ q', 0 < q' ∧ q' < c.quantity ∧ c' = { c with quantity := q' })

theorem removedCell_refl (c : InventoryCellComponent) : removedCell c c := Or.inl rfl

theorem forall₂_removedCell_refl (l : List InventoryCellComponent) :
    List.Forall₂ removedCell l l :=
  List.forall₂_same.mpr (fun c _ => removedCell_refl c)

/-- A single `remove_items` call sends a cell to one of its `removedCell`
fates. -/
theorem remove_items_removedCell (c : InventoryCellComponent) (q : Int) :
    removedCell c (c.remove_items q).2 := by
  unfold InventoryCellComponent.remove_items
  split
  · exact removedCell_refl c
  rename_i hcond
  push_neg at hcond
  obtain ⟨hq, hne⟩ := hcond
  have hfalse : c.is_empty = false := by
    cases hb : c.is_empty
    · rfl
    · exact absurd hb hne
  obtain ⟨hz, hitem⟩ := is_empty_eq_false.mp hfalse
  dsimp only
  split
  · rename_i hzero
    right
    left
    simp only [hzero]
  · rename_i hnz
    right
    right
    exact ⟨c.quantity - min q c.quantity, by omega, by omega, rfl⟩

/-- The removal loop never drops, reorders, or inserts cells: the result is
pointwise a `removedCell` fate of the input. -/
theorem removePass_frame (i : String) :
    ∀ (cells : List InventoryCellComponent) (rem : Int),
    List.Forall₂ removedCell cells (InventoryComponent.removePass i cells rem).1 := by
  intro cells
  induction cells with
  | nil =>
    intro rem
    exact List.Forall₂.nil
  | cons c cs ih =>
    intro rem
    by_cases hc : c.is_empty = false ∧ c.item_id = some i
    · simp only [InventoryComponent.removePass, if_pos hc]
      by_cases hstop : rem - (c.remove_items rem).1 ≤ 0
      · rw [if_pos hstop]
        exact List.Forall₂.cons (remove_items_removedCell c rem) (forall₂_removedCell_refl cs)
      · rw [if_neg hstop]
        exact List.Forall₂.cons (remove_items_removedCell c rem) (ih _)
    · simp only [InventoryComponent.removePass, if_neg hc]
      exact List.Forall₂.cons (removedCell_refl c) (ih rem)

/-- **C10.** `remove_item` never changes the number of cells, and each cell
stays at its original position: it is either untouched, or drained in place —
down to an empty cell (`item_id` `None`, quantity `0`) when its quantity
reaches zero. -/
theorem c10_remove_item_frame (inv : InventoryComponent) (item_id : String)
    (quantity : Int) :
    (inv.remove_item item_id quantity).2.cells.length = inv.cells.length ∧
    List.Forall₂ removedCell inv.cells (inv.remove_item item_id quantity).2.cells := by
  have hrel : List.Forall₂ removedCell inv.cells
      (inv.remove_item item_id quantity).2.cells := by
    unfold InventoryComponent.remove_item
    by_cases h : quantity ≤ 0
    · rw [if_pos h]
      exact forall₂_removedCell_refl _
    · rw [if_neg h]
      dsimp only
      by_cases h2 : (InventoryComponent.removePass item_id inv.cells quantity).2 ≤ 0
      · rw [if_pos h2]
        exact removePass_frame item_id inv.cells quantity
      · rw [if_neg h2]
        exact removePass_frame item_id inv.cells quantity
  exact ⟨hrel.length_eq.symm, hrel⟩

/-! ## Claim C7: counting -/

section CountLemmas

open InventoryCellComponent InventoryComponent

theorem countCells_append (i : String) (l1 l2 : List InventoryCellComponent) :
    countCells i (l1 ++ l2) = countCells i l1 + countCells i l2 := by
  induction l1 with
  | nil => simp [countCells]
  | cons c cs ih => simp only [List.cons_append, countCells, List.append_eq, ih, add_assoc]
/-- Abstract characterization of `add_items` on a non-empty matching cell:
the item identity is kept, the quantity grows by exactly the returned amount,
which is between 0 and the requested amount. -/
theorem add_items_spec_matching {c : InventoryCellComponent} {i : String}
    {rem : Int} (hC : CellInv c) (hne : c.is_empty = false)
    (hid : c.item_id = some i) (hrem : 0 < rem) :
    (c.add_items i rem).2.item_id = some i
    ∧ (c.add_items i rem).2.quantity = c.quantity + (c.add_items i rem).1
    ∧ 0 ≤ (c.add_items i rem).1 ∧ (c.add_items i rem).1 ≤ rem := by
  obtain ⟨h0, h1, h2, h3⟩ := hC
  rw [add_items_matching hne hid hrem]
  exact ⟨rfl, rfl, le_min (by omega) (by omega), min_le_left _ _⟩

/-- Abstract characterization of `add_items` on an empty cell: the item is
stored, the quantity grows by the returned amount, which is between 1 and the
requested amount. -/
theorem add_items_spec_on_empty {c : InventoryCellComponent} {i : String}
    {rem : Int} (hC : CellInv c) (he : c.is_empty = true) (hrem : 0 < rem) :
    (c.add_items i rem).2.item_id = some i
    ∧ (c.add_items i rem).2.quantity = c.quantity + (c.add_items i rem).1
    ∧ 1 ≤ (c.add_items i rem).1 ∧ (c.add_items i rem).1 ≤ rem := by
  obtain ⟨h0, h1, h2, h3⟩ := hC
  have hqz : c.quantity = 0 := by
    rcases is_empty_eq_true.mp he with hx | hx
    · exact hx
    · exact h2.mpr hx
  rw [add_items_on_empty he hrem]
  exact ⟨rfl, rfl, le_min (by omega) (by omega), min_le_left _ _⟩

/-- The fill pass absorbs exactly `rem - remaining'` items into cells counted
by `get_item_count`, leaves the remaining amount non-negative, and preserves
the cell invariant. -/
theorem fillPass_count (i : String) :
    ∀ (cells : List InventoryCellComponent) (rem : Int),
    (∀ c ∈ cells, CellInv c) → 0 < rem →
    countCells i (fillPass i cells rem).1
        = countCells i cells + (rem - (fillPass i cells rem).2) ∧
      0 ≤ (fillPass i cells rem).2 ∧
      (∀ c ∈ (fillPass i cells rem).1, CellInv c) := by
  intro cells
  induction cells with
  | nil =>
    intro rem hinv hrem
    refine ⟨by simp [fillPass], by simpa [fillPass] using le_of_lt hrem,
      by simp [fillPass]⟩
  | cons c cs ih =>
    intro rem hinv hrem
    have hc0 : CellInv c := hinv c (by simp)
    have hcs : ∀ x ∈ cs, CellInv x := fun x hx => hinv x (by simp [hx])
    by_cases hc : c.is_empty = false ∧ c.item_id = some i
    · -- matching head: characterize the `add_items` call abstractly
      obtain ⟨hitem', hqeq, hadd0, haddle⟩ :=
        add_items_spec_matching hc0 hc.1 hc.2 hrem
      have hqpos : 0 < c.quantity := by
        obtain ⟨hq0, _, _, _⟩ := hc0
        obtain ⟨hqz, _⟩ := is_empty_eq_false.mp hc.1
        omega
      have hcell : CellInv (c.add_items i rem).2 := add_items_inv hc0 i rem
      have hcnd : ((c.add_items i rem).2.is_empty = false
          ∧ (c.add_items i rem).2.item_id = some i) := by
        refine ⟨is_empty_eq_false.mpr ⟨by omega, ?_⟩, hitem'⟩
        rw [hitem']
        simp
      simp only [fillPass, if_pos hc]
      by_cases hstop : rem - (c.add_items i rem).1 ≤ 0
      · rw [if_pos hstop]
        refine ⟨?_, by omega, ?_⟩
        · simp only [countCells, if_pos hcnd, if_pos hc]
          omega
        · intro x hx
          rcases List.mem_cons.mp hx with rfl | hx
          · exact hcell
          · exact hcs x hx
      · rw [if_neg hstop]
        obtain ⟨ih1, ih2, ih3⟩ := ih (rem - (c.add_items i rem).1) hcs (by omega)
        refine ⟨?_, ih2, ?_⟩
        · simp only [countCells, if_pos hcnd, if_pos hc]
          rw [ih1]
          omega
        · intro x hx
          rcases List.mem_cons.mp hx with rfl | hx
          · exact hcell
          · exact ih3 x hx
    · simp only [fillPass, if_neg hc]
      obtain ⟨ih1, ih2, ih3⟩ := ih rem hcs hrem
      refine ⟨?_, ih2, ?_⟩
      · simp only [countCells, if_neg hc]
        rw [ih1]
        omega
      · intro x hx
        rcases List.mem_cons.mp hx with rfl | hx
        · exact hc0
        · exact ih3 x hx

/-- Filling the first empty cell adds between 1 and `rem` items, all of them
counted, and preserves the cell invariant. -/
theorem addToFirstEmpty_count (i : String) :
    ∀ (cells : List InventoryCellComponent) (rem : Int)
      (cells' : List InventoryCellComponent) (added : Int),
    (∀ c ∈ cells, CellInv c) → 0 < rem →
    addToFirstEmpty i rem cells = some (cells', added) →
    countCells i cells' = countCells i cells + added ∧ 1 ≤ added ∧ added ≤ rem ∧
      (∀ c ∈ cells', CellInv c) := by
  intro cells
  induction cells with
  | nil =>
    intro rem cells' added _ _ heq
    exact absurd heq (by simp [addToFirstEmpty])
  | cons c cs ih =>
    intro rem cells' added hinv hrem heq
    have hc0 : CellInv c := hinv c (by simp)
    have hcs : ∀ x ∈ cs, CellInv x := fun x hx => hinv x (by simp [hx])
    by_cases hc : c.is_empty = true
    · obtain ⟨hitem', hqeq, hadd1, haddle⟩ := add_items_spec_on_empty hc0 hc hrem
      have hqz : c.quantity = 0 := by
        obtain ⟨_, _, h2, _⟩ := hc0
        rcases is_empty_eq_true.mp hc with hx | hx
        · exact hx
        · exact h2.mpr hx
      have hcell : CellInv (c.add_items i rem).2 := add_items_inv hc0 i rem
      have hcnd : ((c.add_items i rem).2.is_empty = false
          ∧ (c.add_items i rem).2.item_id = some i) := by
        refine ⟨is_empty_eq_false.mpr ⟨by omega, ?_⟩, hitem'⟩
        rw [hitem']
        simp
      have hcneg : ¬(c.is_empty = false ∧ c.item_id = some i) := by
        simp [hc]
      simp only [addToFirstEmpty, if_pos hc] at heq
      simp only [Option.some.injEq, Prod.mk.injEq] at heq
      obtain ⟨rfl, rfl⟩ := heq
      refine ⟨?_, by omega, haddle, ?_⟩
      · simp only [countCells, if_pos hcnd, if_neg hcneg]
        omega
      · intro x hx
        rcases List.mem_cons.mp hx with rfl | hx
        · exact hcell
        · exact hcs x hx
    · simp only [addToFirstEmpty, if_neg hc] at heq
      cases hrec : addToFirstEmpty i rem cs with
      | none =>
        rw [hrec] at heq
        simp at heq
      | some p =>
        rw [hrec] at heq
        simp only [Option.map_some', Option.some.injEq] at heq
        obtain ⟨cs', added'⟩ := p
        simp only [Prod.mk.injEq] at heq
        obtain ⟨rfl, rfl⟩ := heq
        obtain ⟨ih1, ih2, ih3, ih4⟩ := ih rem cs' added' hcs hrem hrec
        refine ⟨?_, ih2, ih3, ?_⟩
        · simp only [countCells]
          rw [ih1]
          omega
        · intro x hx
          rcases List.mem_cons.mp hx with rfl | hx
          · exact hc0
          · exact ih4 x hx

/-- Unfolding equations for the fueled `while` loop. -/
theorem overflowLoop_stop {i : String} {sz maxc : Int} {fuel : Nat}
    {cells : List InventoryCellComponent} {rem : Int} (h : rem ≤ 0) :
    overflowLoop i sz maxc fuel cells rem = (cells, rem) := by
  conv_lhs => unfold overflowLoop
  rw [if_pos h]

theorem overflowLoop_zero {i : String} {sz maxc : Int}
    {cells : List InventoryCellComponent} {rem : Int} :
    overflowLoop i sz maxc 0 cells rem = (cells, rem) := by
  conv_lhs => unfold overflowLoop
  split <;> rfl

theorem overflowLoop_succ_found {i : String} {sz maxc : Int} {f : Nat}
    {cells cells' : List InventoryCellComponent} {rem added : Int} (h : ¬rem ≤ 0)
    (hplace : addToFirstEmpty i rem cells = some (cells', added)) :
    overflowLoop i sz maxc (f + 1) cells rem
      = overflowLoop i sz maxc f cells' (rem - added) := by
  conv_lhs => unfold overflowLoop
  rw [if_neg h, hplace]

theorem overflowLoop_succ_append {i : String} {sz maxc : Int} {f : Nat}
    {cells : List InventoryCellComponent} {rem : Int} (h : ¬rem ≤ 0)
    (hplace : addToFirstEmpty i rem cells = none)
    (hlen : (cells.length : Int) < maxc) :
    overflowLoop i sz maxc (f + 1) cells rem
      = overflowLoop i sz maxc f (cells ++ [((freshCell sz).add_items i rem).2])
          (rem - ((freshCell sz).add_items i rem).1) := by
  conv_lhs => unfold overflowLoop
  rw [if_neg h, hplace]
  show (if (cells.length : Int) < maxc then
      overflowLoop i sz maxc f (cells ++ [((freshCell sz).add_items i rem).2])
        (rem - ((freshCell sz).add_items i rem).1)
    else (cells, rem)) = _
  rw [if_pos hlen]

theorem overflowLoop_succ_full {i : String} {sz maxc : Int} {f : Nat}
    {cells : List InventoryCellComponent} {rem : Int} (h : ¬rem ≤ 0)
    (hplace : addToFirstEmpty i rem cells = none)
    (hlen : ¬(cells.length : Int) < maxc) :
    overflowLoop i sz maxc (f + 1) cells rem = (cells, rem) := by
  conv_lhs => unfold overflowLoop
  rw [if_neg h, hplace]
  show (if (cells.length : Int) < maxc then
      overflowLoop i sz maxc f (cells ++ [((freshCell sz).add_items i rem).2])
        (rem - ((freshCell sz).add_items i rem).1)
    else (cells, rem)) = _
  rw [if_neg hlen]

/-- The overflow loop absorbs exactly `rem - remaining'` items into counted
cells, keeps the remaining amount non-negative, and preserves the cell
invariant.  (It holds for every fuel value: exhausted fuel just returns the
state unchanged.) -/
theorem overflowLoop_count (i : String) (sz maxc : Int) (hsz : 1 ≤ sz) :
    ∀ (fuel : Nat) (cells : List InventoryCellComponent) (rem : Int),
    (∀ c ∈ cells, CellInv c) → 0 ≤ rem →
    countCells i (overflowLoop i sz maxc fuel cells rem).1
        = countCells i cells + (rem - (overflowLoop i sz maxc fuel cells rem).2) ∧
      0 ≤ (overflowLoop i sz maxc fuel cells rem).2 ∧
      (∀ c ∈ (overflowLoop i sz maxc fuel cells rem).1, CellInv c) := by
  intro fuel
  induction fuel with
  | zero =>
    intro cells rem hinv hrem
    rw [overflowLoop_zero]
    refine ⟨?_, hrem, hinv⟩
    show countCells i cells = countCells i cells + (rem - rem)
    omega
  | succ f ihf =>
    intro cells rem hinv hrem
    by_cases h : rem ≤ 0
    · rw [overflowLoop_stop h]
      refine ⟨?_, hrem, hinv⟩
      show countCells i cells = countCells i cells + (rem - rem)
      omega
    · have hrpos : 0 < rem := by omega
      cases hplace : addToFirstEmpty i rem cells with
      | some p =>
        obtain ⟨cells', added⟩ := p
        obtain ⟨hp1, hp2, hp3, hp4⟩ :=
          addToFirstEmpty_count i cells rem cells' added hinv hrpos hplace
        obtain ⟨ih1, ih2, ih3⟩ := ihf cells' (rem - added) hp4 (by omega)
        rw [overflowLoop_succ_found h hplace]
        refine ⟨?_, ih2, ih3⟩
        rw [ih1, hp1]
        omega
      | none =>
        by_cases hlen : (cells.length : Int) < maxc
        · have hfc : CellInv (freshCell sz) := by
            refine ⟨le_refl 0, ?_, ?_, hsz⟩
            · show (0 : Int) ≤ sz
              omega
            · show (0 : Int) = 0 ↔ (none : Option String) = none
              simp
          have hfe : (freshCell sz).is_empty = true := rfl
          obtain ⟨hitem', hqeq, hadd1, haddle⟩ :=
            add_items_spec_on_empty hfc hfe hrpos
          have hcell : CellInv ((freshCell sz).add_items i rem).2 :=
            add_items_inv hfc i rem
          have hcnd : (((freshCell sz).add_items i rem).2.is_empty = false
              ∧ ((freshCell sz).add_items i rem).2.item_id = some i) := by
            have hq0 : (freshCell sz).quantity = 0 := rfl
            refine ⟨is_empty_eq_false.mpr ⟨by omega, ?_⟩, hitem'⟩
            rw [hitem']
            simp
          have hinv' : ∀ x ∈ cells ++ [((freshCell sz).add_items i rem).2],
              CellInv x := by
            intro x hx
            rcases List.mem_append.mp hx with hx | hx
            · exact hinv x hx
            · rw [List.mem_singleton.mp hx]
              exact hcell
          have hcnt : countCells i (cells ++ [((freshCell sz).add_items i rem).2])
              = countCells i cells + ((freshCell sz).add_items i rem).1 := by
            rw [countCells_append]
            simp only [countCells, if_pos hcnd]
            have hq0 : (freshCell sz).quantity = 0 := rfl
            omega
          obtain ⟨ih1, ih2, ih3⟩ := ihf
            (cells ++ [((freshCell sz).add_items i rem).2])
            (rem - ((freshCell sz).add_items i rem).1) hinv' (by omega)
          rw [overflowLoop_succ_append h hplace hlen]
          refine ⟨?_, ih2, ih3⟩
          rw [ih1, hcnt]
          omega
        · rw [overflowLoop_succ_full h hplace hlen]
          refine ⟨?_, hrem, hinv⟩
          show countCells i cells = countCells i cells + (rem - rem)
          omega

/-- `add_item` adds exactly its return value to `get_item_count` for that
item, preserves the cell invariant, and leaves the inventory's capacity
parameters untouched. -/
theorem add_item_count (inv : InventoryComponent) (i : String) (q : Int)
    (mss : Option Int)
    (hinv : ∀ c ∈ inv.cells, CellInv c)
    (hsz : ∀ k, mss = some k → 1 ≤ k)
    (hd : 1 ≤ inv.default_max_stack_size) :
    (inv.add_item i q mss).2.get_item_count i
        = inv.get_item_count i + (inv.add_item i q mss).1 ∧
      (∀ c ∈ (inv.add_item i q mss).2.cells, CellInv c) ∧
      (inv.add_item i q mss).2.max_cells = inv.max_cells ∧
      (inv.add_item i q mss).2.default_max_stack_size
        = inv.default_max_stack_size := by
  by_cases h : q ≤ 0
  · have hid : inv.add_item i q mss = (0, inv) := by
      unfold InventoryComponent.add_item
      rw [if_pos h]
    rw [hid]
    exact ⟨by simp [InventoryComponent.get_item_count], hinv, rfl, rfl⟩
  · obtain ⟨f1, f2, f3⟩ := fillPass_count i inv.cells q hinv (by omega)
    by_cases h2 : (fillPass i inv.cells q).2 ≤ 0
    · have hid : inv.add_item i q mss
          = (q, { inv with cells := (fillPass i inv.cells q).1 }) := by
        unfold InventoryComponent.add_item
        rw [if_neg h]
        dsimp only
        rw [if_pos h2]
      rw [hid]
      have hf0 : (fillPass i inv.cells q).2 = 0 := by omega
      refine ⟨?_, f3, rfl, rfl⟩
      show countCells i (fillPass i inv.cells q).1 = countCells i inv.cells + q
      omega
    · have hid : inv.add_item i q mss
          = (q - (overflowLoop i (mss.getD inv.default_max_stack_size) inv.max_cells
                q.toNat (fillPass i inv.cells q).1 (fillPass i inv.cells q).2).2,
             { inv with cells := (overflowLoop i (mss.getD inv.default_max_stack_size)
                inv.max_cells q.toNat (fillPass i inv.cells q).1
                (fillPass i inv.cells q).2).1 }) := by
        unfold InventoryComponent.add_item
        rw [if_neg h]
        dsimp only
        rw [if_neg h2]
      rw [hid]
      have hsz' : 1 ≤ mss.getD inv.default_max_stack_size := by
        cases mss with
        | none => simpa using hd
        | some k => simpa using hsz k rfl
      obtain ⟨o1, o2, o3⟩ := overflowLoop_count i
        (mss.getD inv.default_max_stack_size) inv.max_cells hsz' q.toNat
        (fillPass i inv.cells q).1 (fillPass i inv.cells q).2 f3 (by omega)
      refine ⟨?_, o3, rfl, rfl⟩
      show countCells i (overflowLoop i (mss.getD inv.default_max_stack_size)
          inv.max_cells q.toNat (fillPass i inv.cells q).1
          (fillPass i inv.cells q).2).1
        = countCells i inv.cells
          + (q - (overflowLoop i (mss.getD inv.default_max_stack_size) inv.max_cells
              q.toNat (fillPass i inv.cells q).1 (fillPass i inv.cells q).2).2)
      omega

end CountLemmas

/-- **C7.** Adding `a` then `b` items of one kind ends with the same total
count of that item (`get_item_count`) as adding `a + b` at once, whenever
capacity is not exceeded in either ordering (each call reports its full
requested amount added).  The stack sizes in play must be positive, as
Pydantic's `ge=1` field constraints guarantee for every constructible
inventory. -/
theorem c7_add_item_additive (inv : InventoryComponent) (i : String) (a b : Int)
    (mss : Option Int)
    (hinv : ∀ c ∈ inv.cells, CellInv c)
    (hsz : ∀ k, mss = some k → 1 ≤ k)
    (hd : 1 ≤ inv.default_max_stack_size)
    (hfull1 : (inv.add_item i a mss).1 = a)
    (hfull2 : ((inv.add_item i a mss).2.add_item i b mss).1 = b)
    (hfull3 : (inv.add_item i (a + b) mss).1 = a + b) :
    ((inv.add_item i a mss).2.add_item i b mss).2.get_item_count i
      = (inv.add_item i (a + b) mss).2.get_item_count i := by
  obtain ⟨m1a, m1b, m1c, m1d⟩ := add_item_count inv i a mss hinv hsz hd
  obtain ⟨m2a, m2b, m2c, m2d⟩ := add_item_count (inv.add_item i a mss).2 i b mss
    m1b hsz (by rw [m1d]; exact hd)
  obtain ⟨m3a, m3b, m3c, m3d⟩ := add_item_count inv i (a + b) mss hinv hsz hd
  rw [m2a, hfull2, m1a, hfull1, m3a, hfull3]
  omega

/-- Witness for C7: an empty two-cell inventory with default stack size 5;
adding 3 then 4 potions, versus 7 at once, both end with 7 counted. -/
theorem c7_add_item_additive_witness :
    (((⟨[], 2, 5⟩ : InventoryComponent).add_item "p" 3 none).2.add_item
        "p" 4 none).2.get_item_count "p"
      = ((⟨[], 2, 5⟩ : InventoryComponent).add_item "p" (3 + 4) none).2.get_item_count
          "p" := by
  exact c7_add_item_additive ⟨[], 2, 5⟩ "p" 3 4 none (by simp)
    (fun k hk => by cases hk) (by decide) (by decide) (by decide) (by decide)

/-! ## Claim C4: serialization round-trip -/

/-- Pydantic construction of `InventoryCellComponent` with every field
explicit, as `model_validate` performs on a `model_dump` record (which emits
all five fields).  Fields are validated in declaration order: `quantity`
carries `Field(ge=0)` and its clamp `validate_quantity` (lines 578-595) runs
BEFORE `max_stack_size` has been validated, so
`values.get("max_stack_size", 1)` yields the fallback `1`; then
`max_stack_size` is checked against `Field(ge=1)`; finally the model
validator `validate_item_id_and_quantity` (lines 597-613) rejects a positive
quantity without an item and clears `item_id` at zero quantity.  `.error`
models a raised `ValidationError` / `ValueError`. -/
def validateCellRecord (item_id : Option String) (quantity : Int)
    (max_stack_size : Int) (slot_type : Option String) (is_equipped : Bool) :
    Except String InventoryCellComponent :=
  if quantity < 0 then .error "quantity must be greater than or equal to 0"
  else
    let clamped := if 1 < quantity then 1 else quantity
    if max_stack_size < 1 then .error "max_stack_size must be greater than or equal to 1"
    else if 0 < clamped ∧ item_id = none then
      .error "Cannot have quantity > 0 without an item_id"
    else
      .ok { item_id := if clamped = 0 then none else item_id
            quantity := clamped
            max_stack_size := max_stack_size
            slot_type := slot_type
            is_equipped := is_equipped }

/-- `model_validate (model_dump cell)`: reconstruct an inventory cell from
its own serialized fields. -/
def roundTripCell (c : InventoryCellComponent) :
    Except String InventoryCellComponent :=
  validateCellRecord c.item_id c.quantity c.max_stack_size c.slot_type c.is_equipped

/-- **C4** is REFUTED by the code for inventory cells: a cell holding 3
potions in a 5-stack — reachable through the public API (first conjunct) —
deserializes with its quantity clamped to 1 (second conjunct), because
`validate_quantity` runs before `max_stack_size` is available and clamps
against the fallback `1`.  The round trip is not field-wise equal: it loses
quantity, contradicting the serialization contract and the validator's own
docstring ("Ensures quantity doesn't exceed max_stack_size"), so the code,
not the claim, is at fault. -/
theorem c4_cell_round_trip_lossy :
    ((InventoryComponent.freshCell 5).add_items "potion" 3).2
      = ⟨some "potion", 3, 5, none, false⟩ ∧
    roundTripCell ⟨some "potion", 3, 5, none, false⟩
      = .ok ⟨some "potion", 1, 5, none, false⟩ ∧
    (⟨some "potion", 1, 5, none, false⟩ : InventoryCellComponent)
      ≠ ⟨some "potion", 3, 5, none, false⟩ :=
  ⟨rfl, rfl, by decide⟩

end ArcaneWeaver
